import Mathlib

/-!
Verification of the GRL-2023 gridded precipitation-frequency pipeline.

The development shallowly embeds the three processing stages of the
repository:

* the binning stage (notebook "Tabulate Grids"): ship observations are
  assigned 1-degree latitude/longitude bin labels with np.digitize over
  ascending edge lists, then counted per (year, month, lat bin, lon bin),
  once for all reports and once for reports with present-weather code
  WW >= 50;
* the convolution stage (notebook "Convolve Grids"): monthly count grids
  are circularly convolved with all-ones kernels at seven window sizes,
  multiplied by the land/sea mask, and accumulated into seasonal slices
  (DJF, MAM, JJA, SON, Annual) per year;
* the composite stage (notebook "Composite Fractions"): per cell, a
  nested scan over descending sigma thresholds (outer) and windows from
  widest to narrowest (inner) overwrites the composite fraction, sigma
  and window-index grids wherever s/f < threshold or f + s < 0.01.

Modelling conventions: counts live in ℤ (the int32 accumulators do not
overflow for the data volumes involved, and the float64 convolution of
integer grids is exact, so the astype truncation is the identity);
float32 data values are idealised as ℚ, with the IEEE-754 special values
produced by division by zero modelled explicitly by the type FpVal;
grids are total functions on ZMod indices, which makes the wrap (circular)
boundary of scipy.signal.convolve2d the ordinary ZMod arithmetic.
-/

namespace GRL

/-- Month membership table of the five season slices, copied from the
convolution notebook: months = [[11,0,1], [2,3,4], [5,6,7], [8,9,10],
[0,...,11]] for DJF, MAM, JJA, SON, Annual. Month indices are 0-based. -/
def months : Fin 5 → List (Fin 12)
  | 0 => [11, 0, 1]
  | 1 => [2, 3, 4]
  | 2 => [5, 6, 7]
  | 3 => [8, 9, 10]
  | 4 => [0, 1, 2, 3, 4, 5, 6, 7, 8, 9, 10, 11]

/-- Half-extents (radii) of the all-ones convolution kernel of window j.
The notebook builds np.ones((2j+1, 2j+1)) for j < 6 and np.ones((13, 27))
for j = 6; radii (r_lat, r_lon) give kernel shape (2 r_lat + 1, 2 r_lon + 1). -/
def windowRadii (j : Fin 7) : ℕ × ℕ :=
  if (j : ℕ) < 6 then ((j : ℕ), (j : ℕ)) else (6, 13)

/-- Centered circular 2-D convolution of grid t with the all-ones kernel of
radii (rh, rw): the value at (x, y) is the sum of t over the window of
lat offsets -rh..rh and lon offsets -rw..rw, with both axes wrapping.
This is scipy.signal.convolve2d(t, ones, mode same, boundary wrap) for an
odd-sided kernel. -/
def convolve2dWrap (H W : ℕ) (rh rw : ℕ) (t : ZMod H → ZMod W → ℤ)
    (x : ZMod H) (y : ZMod W) : ℤ :=
  ∑ dx ∈ Finset.range (2 * rh + 1), ∑ dy ∈ Finset.range (2 * rw + 1),
    t (x + (dx : ZMod H) - (rh : ZMod H)) (y + (dy : ZMod W) - (rw : ZMod W))

/-- The contribution of one month to the accumulated output:
convolve2d(t, a, mode same, boundary wrap).astype(int32) * ls_mask.
Note the code multiplies by ls_mask itself (True = land per the notebook),
not by its negation. -/
def maskedConv (H W : ℕ) (ls_mask : ZMod H → ZMod W → Bool) (rh rw : ℕ)
    (t : ZMod H → ZMod W → ℤ) (x : ZMod H) (y : ZMod W) : ℤ :=
  convolve2dWrap H W rh rw t x y * (if ls_mask x y then 1 else 0)

/-- Value of the accumulated output tensor tout[j, iyr, iseason, x, y]
after the convolution loop: the sum, over the member months imo of
iseason, of the masked convolution of the monthly grid tin[iyr, imo]. -/
def tout (Y H W : ℕ) (ls_mask : ZMod H → ZMod W → Bool)
    (tin : Fin Y → Fin 12 → ZMod H → ZMod W → ℤ) (j : Fin 7) (iyr : Fin Y)
    (iseason : Fin 5) (x : ZMod H) (y : ZMod W) : ℤ :=
  ((months iseason).map (fun imo =>
    maskedConv H W ls_mask (windowRadii j).1 (windowRadii j).2
      (tin iyr imo) x y)).sum

/-- Modelled from the spec (SeasonalAggregator, a stage the notebooks fuse
into the convolution loop): each season slice is the element-wise sum of
the grids of its member months for that year. Used only as the staged side of
the refinement comparison. -/
def seasonalAgg (Y H W : ℕ) (tin : Fin Y → Fin 12 → ZMod H → ZMod W → ℤ)
    (iyr : Fin Y) (iseason : Fin 5) (x : ZMod H) (y : ZMod W) : ℤ :=
  ((months iseason).map (fun imo => tin iyr imo x y)).sum

/-- Modelled from the spec (MultiWindowConvolver applied to an already
aggregated seasonal slice): convolve the seasonal slice once and apply the
mask once. The floor is the identity because the slice is integer valued. -/
def stagedConv (Y H W : ℕ) (ls_mask : ZMod H → ZMod W → Bool)
    (tin : Fin Y → Fin 12 → ZMod H → ZMod W → ℤ) (j : Fin 7) (iyr : Fin Y)
    (iseason : Fin 5) (x : ZMod H) (y : ZMod W) : ℤ :=
  convolve2dWrap H W (windowRadii j).1 (windowRadii j).2
    (seasonalAgg Y H W tin iyr iseason) x y * (if ls_mask x y then 1 else 0)

/-- The centered wrap convolution with an all-ones kernel is additive in the
grid argument, taken pointwise over a list of grids. -/
theorem convolve2dWrap_listSum (H W rh rw : ℕ) (l : List (Fin 12))
    (g : Fin 12 → ZMod H → ZMod W → ℤ) (x : ZMod H) (y : ZMod W) :
    convolve2dWrap H W rh rw (fun u v => (l.map (fun m => g m u v)).sum) x y
      = (l.map (fun m => convolve2dWrap H W rh rw (g m) x y)).sum := by
  induction l with
  | nil => simp [convolve2dWrap]
  | cons a t ih =>
      simp only [List.map_cons, List.sum_cons]
      rw [← ih]
      simp [convolve2dWrap, Finset.sum_add_distrib]

/-- C3: for every (window, year, season, lat, lon), the fused evaluation the
code performs — convolve the grid of each member month, mask it, and sum over the
member months of the season — equals the staged pipeline of the spec, which
first sums the member months into a seasonal slice and then convolves once,
applying the same mask once. -/
theorem fused_conv_eq_staged (Y H W : ℕ) (ls_mask : ZMod H → ZMod W → Bool)
    (tin : Fin Y → Fin 12 → ZMod H → ZMod W → ℤ) (j : Fin 7) (iyr : Fin Y)
    (iseason : Fin 5) (x : ZMod H) (y : ZMod W) :
    tout Y H W ls_mask tin j iyr iseason x y
      = stagedConv Y H W ls_mask tin j iyr iseason x y := by
  unfold tout stagedConv seasonalAgg maskedConv
  rw [convolve2dWrap_listSum, ← List.sum_map_mul_right]

/-- C5: for every window, year and cell, the Annual season slice of the
accumulated output equals the cell-wise sum of the DJF, MAM, JJA and SON
slices of the same year. -/
theorem annual_eq_sum_of_seasons (Y H W : ℕ) (ls_mask : ZMod H → ZMod W → Bool)
    (tin : Fin Y → Fin 12 → ZMod H → ZMod W → ℤ) (j : Fin 7) (iyr : Fin Y)
    (x : ZMod H) (y : ZMod W) :
    tout Y H W ls_mask tin j iyr 4 x y
      = tout Y H W ls_mask tin j iyr 0 x y + tout Y H W ls_mask tin j iyr 1 x y
        + tout Y H W ls_mask tin j iyr 2 x y
        + tout Y H W ls_mask tin j iyr 3 x y := by
  simp only [tout, months, List.map_cons, List.map_nil, List.sum_cons,
    List.sum_nil]
  ring

/-- C9: the DJF slice labeled with year index iyr is accumulated exclusively
from the monthly grids of months 11, 0 and 1 (December, January, February) at
the same year index iyr: two inputs that agree on those three grids produce
the same DJF slice, however much they differ at other months or other years.
In particular no month of year iyr - 1 or iyr + 1 contributes, so the
implemented DJF season does not span a calendar-year boundary. -/
theorem djf_uses_only_same_year_months (Y H W : ℕ)
    (ls_mask : ZMod H → ZMod W → Bool)
    (tin₁ tin₂ : Fin Y → Fin 12 → ZMod H → ZMod W → ℤ) (j : Fin 7)
    (iyr : Fin Y) (x : ZMod H) (y : ZMod W)
    (h : ∀ imo ∈ months 0, tin₁ iyr imo = tin₂ iyr imo) :
    tout Y H W ls_mask tin₁ j iyr 0 x y = tout Y H W ls_mask tin₂ j iyr 0 x y := by
  have h11 := h 11 (by simp [months])
  have h0 := h 0 (by simp [months])
  have h1 := h 1 (by simp [months])
  simp [tout, months, h11, h0, h1]

/-- First concrete input for the year-attribution theorem: monthly value plus
a year-dependent offset. -/
def tinA : Fin 2 → Fin 12 → ZMod 1 → ZMod 1 → ℤ :=
  fun yr mo _ _ => ((mo : ℕ) : ℤ) + 100 * ((yr : ℕ) : ℤ)

/-- Second concrete input: agrees with tinA exactly on months 11, 0, 1 of
year 0 and is the constant 7 everywhere else. -/
def tinB : Fin 2 → Fin 12 → ZMod 1 → ZMod 1 → ℤ :=
  fun yr mo _ _ =>
    if yr = (0 : Fin 2) ∧ (mo = (11 : Fin 12) ∨ mo = 0 ∨ mo = 1)
    then ((mo : ℕ) : ℤ) else 7

/-- Witness for C9 at a concrete input: tinA and tinB agree on the December,
January and February grids of year 0 but differ at other months of year 0 and
at every month of year 1; their DJF slices for year 0 coincide. -/
theorem djf_uses_only_same_year_months_witness :
    (∀ imo ∈ months 0, tinA 0 imo = tinB 0 imo) ∧
      tout 2 1 1 (fun _ _ => false) tinA 0 0 0 0 0
        = tout 2 1 1 (fun _ _ => false) tinB 0 0 0 0 0 :=
  ⟨by decide,
    djf_uses_only_same_year_months 2 1 1 (fun _ _ => false) tinA tinB 0 0 0 0
      (by decide)⟩

/-- C1 (bug evaluation): on a 1 x 1 x 1 configuration whose land/sea mask is
True (land) everywhere and whose monthly grids are the constant 1, the window
0 DJF output at the land cell is 3, not 0: the code multiplies the convolved
grid by ls_mask itself, so cells where ls_mask is True keep their convolved
value, and cells where it is False are zeroed — the opposite of the claimed
land masking (the notebook documents ls_mask as True where there is land and
states the intent of filtering land out). -/
theorem land_cell_keeps_value :
    tout 1 1 1 (fun _ _ => true) (fun _ _ _ _ => (1 : ℤ)) 0 0 0 0 0 = 3 ∧
      (3 : ℤ) ≠ 0 := by
  constructor
  · decide
  · decide

/-- C6 (bug evaluation): with an all-ocean mask (ls_mask False everywhere)
and constant-1 monthly grids, the window 0 (1 x 1 kernel) DJF output at an
ocean cell is 0, while the input seasonal count at that cell is 3: instead of
acting as the identity over ocean cells, window 0 zeroes every ocean cell and
keeps land cells, again because the code multiplies by ls_mask rather than by
its negation. -/
theorem window0_zeroes_ocean_cell :
    tout 1 1 1 (fun _ _ => false) (fun _ _ _ _ => (1 : ℤ)) 0 0 0 0 0 = 0 ∧
      ((months 0).map (fun imo =>
        (fun (_ : Fin 1) (_ : Fin 12) (_ : ZMod 1) (_ : ZMod 1) => (1 : ℤ))
          0 imo 0 0)).sum = 3 := by
  constructor
  · decide
  · decide

/-- IEEE-754 value of a float division, idealised over ℚ: a finite rational,
a signed infinity, or NaN. Only division can produce the non-finite cases in
the composite notebook. -/
inductive FpVal where
  | fin : ℚ → FpVal
  | posInf : FpVal
  | negInf : FpVal
  | nan : FpVal
deriving DecidableEq

/-- IEEE division s / f over the idealised values: finite quotient when
f ≠ 0, and for f = 0 (numpy float zero is +0 here) a signed infinity when
s ≠ 0 and NaN when s = 0. -/
def fpDiv (s f : ℚ) : FpVal :=
  if f = 0 then
    if s = 0 then .nan else if 0 < s then .posInf else .negInf
  else .fin (s / f)

/-- IEEE comparison of an idealised float against a finite threshold:
NaN compares false, positive infinity is not below any finite threshold,
negative infinity is below every one. -/
def fpLt (v : FpVal) (t : ℚ) : Bool :=
  match v with
  | .fin q => decide (q < t)
  | .posInf => false
  | .negInf => true
  | .nan => false

/-- Mask m1 of the composite notebook at one cell: sratio[i] < sthresh with
sratio = s / f computed in floating point. -/
def m1 {Cell : Type} (f s : Fin 7 → Cell → ℚ) (i : Fin 7) (sthresh : ℚ)
    (c : Cell) : Bool :=
  fpLt (fpDiv (s i c) (f i c)) sthresh

/-- Mask m2 (the low-signal criterion) at one cell: f[i] + s[i] < 0.01. -/
def m2 {Cell : Type} (f s : Fin 7 → Cell → ℚ) (i : Fin 7) (c : Cell) : Bool :=
  decide (f i c + s i c < 0.01)

/-- Combined eligibility mask m = logical_or(m1, m2) at one cell. -/
def eligMask {Cell : Type} (f s : Fin 7 → Cell → ℚ) (sthresh : ℚ) (i : Fin 7)
    (c : Cell) : Bool :=
  m1 f s i sthresh c || m2 f s i c

/-- The threshold ladder of the composite notebook, in iteration order. -/
def sthreshList : List ℚ :=
  [0.4, 0.3, 0.2, 0.1, 0.05, 0.03, 0.02, 0.01, 0.005, 0.003, 0.002, 0.001]

/-- The window iteration order of the inner loop: np.flip(np.arange(7)),
widest (index 6) down to narrowest (index 0). -/
def windowOrder : List (Fin 7) := [6, 5, 4, 3, 2, 1, 0]

/-- All (threshold, window) passes in execution order: thresholds outer
(descending), windows inner (widest to narrowest). -/
def passList : List (ℚ × Fin 7) :=
  sthreshList.flatMap (fun t => windowOrder.map (fun i => (t, i)))

/-- State of the three composite grids during the scan. fcomp and scomp
start as NaN (modelled none) everywhere, rcomp as the int8 constant -1. -/
structure CompState (Cell : Type) where
  fcomp : Cell → Option ℚ
  scomp : Cell → Option ℚ
  rcomp : Cell → ℤ

/-- Initial composite state: np.zeros(...)*np.nan for fcomp and scomp,
np.zeros(...) - 1 for rcomp. -/
def initComp (Cell : Type) : CompState Cell :=
  ⟨fun _ => none, fun _ => none, fun _ => -1⟩

/-- One pass of the inner loop body: wherever the eligibility mask holds,
overwrite fcomp, scomp, rcomp with the values of window p.2; elsewhere keep
the previous state. -/
def stepPass {Cell : Type} (f s : Fin 7 → Cell → ℚ) (st : CompState Cell)
    (p : ℚ × Fin 7) : CompState Cell :=
  ⟨fun c => if eligMask f s p.1 p.2 c then some (f p.2 c) else st.fcomp c,
   fun c => if eligMask f s p.1 p.2 c then some (s p.2 c) else st.scomp c,
   fun c => if eligMask f s p.1 p.2 c then ((p.2 : ℕ) : ℤ) else st.rcomp c⟩

/-- The full composite scan: fold the pass body over every (threshold,
window) pair in execution order, starting from the initial state. -/
def runComposite {Cell : Type} (f s : Fin 7 → Cell → ℚ) : CompState Cell :=
  passList.foldl (stepPass f s) (initComp Cell)

/-- Folding the overwrite-on-eligible body over any pass list leaves, at each
cell, the values of the last eligible pass, or the starting state when no
pass is eligible there. -/
theorem foldl_stepPass_last {Cell : Type} (f s : Fin 7 → Cell → ℚ) (c : Cell)
    (L : List (ℚ × Fin 7)) (st : CompState Cell) :
    (L.foldl (stepPass f s) st).fcomp c
        = ((L.filter (fun p => eligMask f s p.1 p.2 c)).getLast?).elim
            (st.fcomp c) (fun p => some (f p.2 c)) ∧
      (L.foldl (stepPass f s) st).scomp c
        = ((L.filter (fun p => eligMask f s p.1 p.2 c)).getLast?).elim
            (st.scomp c) (fun p => some (s p.2 c)) ∧
      (L.foldl (stepPass f s) st).rcomp c
        = ((L.filter (fun p => eligMask f s p.1 p.2 c)).getLast?).elim
            (st.rcomp c) (fun p => ((p.2 : ℕ) : ℤ)) := by
  induction L using List.reverseRecOn generalizing st with
  | nil => simp
  | append_singleton l p ih =>
      rw [List.foldl_append, List.filter_append]
      by_cases hp : eligMask f s p.1 p.2 c
      · simp [hp, stepPass]
      · simp only [List.foldl_cons, List.foldl_nil, List.filter_cons,
          List.filter_nil, hp, Bool.false_eq_true, if_neg, List.append_nil]
        have := ih st
        simpa [stepPass, hp] using this

/-- C2: at every cell, the composite outputs equal the assignment made by
the last eligible (threshold, window) pass in the fixed execution order —
thresholds outer, descending from 0.4 to 0.001, windows inner from index 6
down to 0 — where a pass (t, i) is eligible at cell c iff s[i]/f[i] < t
(IEEE semantics) or f[i] + s[i] < 0.01; a cell with no eligible pass keeps
rcomp = -1 and NaN (none) fcomp and scomp. -/
theorem composite_last_eligible_wins {Cell : Type} (f s : Fin 7 → Cell → ℚ)
    (c : Cell) :
    (runComposite f s).fcomp c
        = ((passList.filter (fun p => eligMask f s p.1 p.2 c)).getLast?).elim
            none (fun p => some (f p.2 c)) ∧
      (runComposite f s).scomp c
        = ((passList.filter (fun p => eligMask f s p.1 p.2 c)).getLast?).elim
            none (fun p => some (s p.2 c)) ∧
      (runComposite f s).rcomp c
        = ((passList.filter (fun p => eligMask f s p.1 p.2 c)).getLast?).elim
            (-1) (fun p => ((p.2 : ℕ) : ℤ)) := by
  simpa [runComposite, initComp] using
    foldl_stepPass_last f s c passList (initComp Cell)

/-- C4: at a cell where the fraction of some window is 0 and its sigma is
nonnegative, the relative-error ratio s/f is NaN (s = 0) or positive
infinity (s > 0); in the IEEE comparison semantics the test
relative_error < threshold is then false for every threshold, so the cell is
eligible at that window exactly when the low-signal test f + s < 0.01 holds.
Division by zero is a total operation of the model (fpDiv), so no exception
is raised. -/
theorem zero_fraction_eligible_only_by_low_signal {Cell : Type}
    (f s : Fin 7 → Cell → ℚ) (i : Fin 7) (sthresh : ℚ) (c : Cell)
    (hf : f i c = 0) (hs : 0 ≤ s i c) :
    m1 f s i sthresh c = false ∧
      eligMask f s sthresh i c = m2 f s i c := by
  have hdiv : fpDiv (s i c) (f i c) = .nan ∨ fpDiv (s i c) (f i c) = .posInf := by
    rw [hf]
    unfold fpDiv
    by_cases h : s i c = 0
    · left; simp [h]
    · right; simp [h, lt_of_le_of_ne hs (Ne.symm h)]
  have hm1 : m1 f s i sthresh c = false := by
    rcases hdiv with h | h <;> simp [m1, h, fpLt]
  exact ⟨hm1, by simp [eligMask, hm1]⟩

/-- Witness for C4 at a concrete input: the all-zero fraction tensor with
constant sigma 1 at window 0 and the largest threshold 0.4. -/
theorem zero_fraction_eligible_only_by_low_signal_witness :
    ((fun (_ : Fin 7) (_ : Unit) => (0 : ℚ)) 0 () = 0 ∧
        (0 : ℚ) ≤ (fun (_ : Fin 7) (_ : Unit) => (1 : ℚ)) 0 ()) ∧
      m1 (fun _ (_ : Unit) => (0 : ℚ)) (fun _ _ => 1) 0 0.4 () = false ∧
        eligMask (fun _ (_ : Unit) => (0 : ℚ)) (fun _ _ => 1) 0.4 0 ()
          = m2 (fun _ (_ : Unit) => (0 : ℚ)) (fun _ _ => 1) 0 () :=
  ⟨⟨rfl, by norm_num⟩,
    zero_fraction_eligible_only_by_low_signal (fun _ _ => 0) (fun _ _ => 1)
      0 0.4 () rfl (by norm_num)⟩

/-- C7: for a cell whose fraction and sigma are 0 at every window, the
low-signal criterion already holds at the widest window (so in particular at
the very first pass, threshold 0.4 and window 6, where the ratio test itself
is false because 0/0 is NaN), and after all overwrite passes complete the
selected window index is 0 — the narrowest — not -1. -/
theorem all_zero_cell_ends_at_window0 :
    m2 (fun _ (_ : Unit) => (0 : ℚ)) (fun _ _ => 0) 6 () = true ∧
      m1 (fun _ (_ : Unit) => (0 : ℚ)) (fun _ _ => 0) 6 0.4 () = false ∧
      (runComposite (fun _ (_ : Unit) => (0 : ℚ)) (fun _ _ => 0)).rcomp () = 0 ∧
      (runComposite (fun _ (_ : Unit) => (0 : ℚ)) (fun _ _ => 0)).rcomp () ≠ -1 := by
  have hr : (runComposite (fun _ (_ : Unit) => (0 : ℚ)) (fun _ _ => 0)).rcomp () = 0 := by
    norm_num [runComposite, passList, sthreshList, windowOrder, stepPass,
      initComp, eligMask, m1, m2, fpDiv, fpLt]
  refine ⟨by norm_num [m2], by norm_num [m1, fpDiv, fpLt], hr, ?_⟩
  rw [hr]
  norm_num

/-- Edge list np.arange(a, a + n, 1) of the binning notebook, as exact
rationals: a, a + 1, ..., a + n - 1. Latitudes use a = -90, n = 180 and
longitudes a = 0, n = 360; both lists are ascending, as np.digitize needs. -/
def edgeList (a : ℤ) (n : ℕ) : List ℚ :=
  (List.range n).map (fun (i : ℕ) => ((a + i : ℤ) : ℚ))

/-- np.digitize(x, bins) for ascending bins (right=False): the index i with
bins[i-1] <= x < bins[i], which for a sorted bins list is the number of
edges that are ≤ x (0 when x is below every edge, bins.length when x is at
or above the last edge). -/
def digitize (x : ℚ) (bins : List ℚ) : ℕ :=
  (bins.filter (fun e => decide (e ≤ x))).length

/-- NumPy basic indexing arr[k] on a one-dimensional array: a negative index
counts from the end of the array, and an index outside [-len, len) raises
IndexError, modelled as none. -/
def npGet (l : List ℚ) (k : ℤ) : Option ℚ :=
  if k < 0 then
    if 0 ≤ k + l.length then l[(k + l.length).toNat]? else none
  else l[k.toNat]?

/-- The bin label the notebook attaches to a coordinate:
lats[np.digitize(x, lats) - 1] (and the same with lons), with NumPy
negative-index semantics for the subtraction by one. -/
def binLabel (a : ℤ) (n : ℕ) (x : ℚ) : Option ℚ :=
  npGet (edgeList a n) ((digitize x (edgeList a n) : ℤ) - 1)

/-- Counting the naturals below n that are at most K. -/
theorem countP_range_le (n : ℕ) (K : ℤ) :
    (List.range n).countP (fun (i : ℕ) => decide ((i : ℤ) ≤ K))
      = if K < 0 then 0 else min n (K.toNat + 1) := by
  induction n with
  | zero => simp
  | succ n ih =>
      have hsingle : List.countP (fun (i : ℕ) => decide ((i : ℤ) ≤ K)) [n]
          = if (n : ℤ) ≤ K then 1 else 0 := by
        by_cases h : (n : ℤ) ≤ K <;> simp [List.countP_cons, h]
      rw [List.range_succ, List.countP_append, ih, hsingle]
      simp only [Nat.min_def]
      split_ifs <;> omega

/-- Closed form of np.digitize over the arange edge list: the number of
edges ≤ x, expressed through the floor of x. -/
theorem digitize_edgeList (a : ℤ) (n : ℕ) (x : ℚ) :
    digitize x (edgeList a n)
      = if (⌊x⌋ - a) < 0 then 0 else min n ((⌊x⌋ - a).toNat + 1) := by
  unfold digitize edgeList
  rw [← List.countP_eq_length_filter, List.countP_map]
  have hcong : ∀ (i : ℕ), i ∈ List.range n →
      ((((fun e => decide (e ≤ x)) ∘ (fun (i : ℕ) => ((a + i : ℤ) : ℚ))) i)
          = true
        ↔ ((fun (i : ℕ) => decide ((i : ℤ) ≤ ⌊x⌋ - a)) i) = true) := by
    intro i _
    simp only [Function.comp_apply, decide_eq_true_eq]
    rw [show ((a + (i : ℕ) : ℤ) : ℚ) ≤ x ↔ (a + (i : ℕ) : ℤ) ≤ ⌊x⌋ from
      (Int.le_floor).symm]
    omega
  rw [List.countP_congr hcong]
  exact countP_range_le n (⌊x⌋ - a)

/-- Length of the arange edge list. -/
theorem edgeList_length (a : ℤ) (n : ℕ) : (edgeList a n).length = n := by
  simp [edgeList]

/-- Entry i of the arange edge list is the edge a + i. -/
theorem edgeList_getElem (a : ℤ) (n : ℕ) (i : ℕ) (h : i < n) :
    (edgeList a n)[i]? = some ((a + i : ℤ) : ℚ) := by
  unfold edgeList
  rw [List.getElem?_map, List.getElem?_range h]
  rfl

/-- C8 (amended): a record whose coordinate lies within the configured
edges is assigned the cell whose lower edge is the greatest edge ≤ the
coordinate (its floor, since edges are the consecutive integers
a, ..., a + n - 1); but a coordinate outside the edges does NOT make the
binning fail: below the first edge, digitize returns 0 and the notebook
then reads lats[-1], which NumPy negative indexing silently turns into the
LAST (greatest) edge, and at or above the top of the last cell the record
is likewise silently assigned the last edge. No failure path exists. -/
theorem binLabel_floor_or_silent_assign (a : ℤ) (n : ℕ) (x : ℚ) :
    ((a : ℚ) ≤ x → x < (a : ℚ) + (n : ℚ) → binLabel a n x = some ((⌊x⌋ : ℤ) : ℚ)) ∧
      (x < (a : ℚ) → 0 < n → binLabel a n x = some ((a + n - 1 : ℤ) : ℚ)) ∧
      ((a : ℚ) + (n : ℚ) ≤ x → 0 < n → binLabel a n x = some ((a + n - 1 : ℤ) : ℚ)) := by
  refine ⟨?_, ?_, ?_⟩
  · intro ha hb
    have hm1 : a ≤ ⌊x⌋ := Int.le_floor.mpr ha
    have hm2 : ⌊x⌋ < a + n := Int.floor_lt.mpr (by push_cast; exact hb)
    unfold binLabel npGet
    rw [digitize_edgeList, if_neg (by omega : ¬ (⌊x⌋ - a < 0)),
      Nat.min_eq_right (by omega), if_neg
        (by omega : ¬ ((((⌊x⌋ - a).toNat + 1 : ℕ) : ℤ) - 1 < 0)),
      (by omega : ((((⌊x⌋ - a).toNat + 1 : ℕ) : ℤ) - 1).toNat = (⌊x⌋ - a).toNat),
      edgeList_getElem a n _ (by omega)]
    congr 2
    omega
  · intro hx hn
    have hm : ⌊x⌋ < a := Int.floor_lt.mpr hx
    unfold binLabel npGet
    rw [digitize_edgeList, if_pos (by omega : ⌊x⌋ - a < 0)]
    rw [if_pos (by omega : (((0 : ℕ) : ℤ) - 1 < 0)), edgeList_length,
      if_pos (by omega : (0 : ℤ) ≤ ((0 : ℕ) : ℤ) - 1 + n),
      (by omega : (((0 : ℕ) : ℤ) - 1 + n).toNat = n - 1),
      edgeList_getElem a n _ (by omega)]
    congr 2
    omega
  · intro hx hn
    have hm : a + n ≤ ⌊x⌋ := Int.le_floor.mpr (by push_cast; exact hx)
    unfold binLabel npGet
    rw [digitize_edgeList, if_neg (by omega : ¬ (⌊x⌋ - a < 0)),
      Nat.min_eq_left (by omega), if_neg (by omega : ¬ (((n : ℕ) : ℤ) - 1 < 0)),
      (by omega : (((n : ℕ) : ℤ) - 1).toNat = n - 1),
      edgeList_getElem a n _ (by omega)]
    congr 2
    omega

/-- Witness for C8 on the latitude configuration lats = arange(-90, 90):
the in-range coordinate 5.5 is assigned its floor edge 5, and the
below-range coordinate -95 is silently assigned the greatest edge 89. -/
theorem binLabel_floor_or_silent_assign_witness :
    (((-90 : ℤ) : ℚ) ≤ 11 / 2 ∧ (11 / 2 : ℚ) < ((-90 : ℤ) : ℚ) + (180 : ℕ) ∧
        binLabel (-90) 180 (11 / 2) = some ((⌊(11 / 2 : ℚ)⌋ : ℤ) : ℚ)) ∧
      ((-95 : ℚ) < ((-90 : ℤ) : ℚ) ∧ 0 < 180 ∧
        binLabel (-90) 180 (-95) = some (((-90 : ℤ) + (180 : ℕ) - 1 : ℤ) : ℚ)) :=
  ⟨⟨by norm_num, by norm_num,
      (binLabel_floor_or_silent_assign (-90) 180 (11 / 2)).1 (by norm_num)
        (by norm_num)⟩,
    ⟨by norm_num, by norm_num,
      (binLabel_floor_or_silent_assign (-90) 180 (-95)).2.1 (by norm_num)
        (by norm_num)⟩⟩

/-- C8 (counterexample to the claim as stated): the latitude -91 is below
the lowest configured edge -90, yet the binning does not fail: it silently
assigns the record the topmost latitude cell, edge 89. In the embedding
every failure of the NumPy indexing is none, so producing some 89 shows no
error is raised. -/
theorem out_of_range_lat_silently_binned :
    (-91 : ℚ) < -90 ∧ binLabel (-90) 180 (-91) = some 89 := by
  constructor
  · norm_num
  · have hfl : ⌊(-91 : ℚ)⌋ = -91 := by norm_num
    unfold binLabel npGet
    rw [digitize_edgeList, hfl, if_pos (by norm_num : (-91 : ℤ) - (-90) < 0)]
    rw [if_pos (by norm_num : (((0 : ℕ) : ℤ) - 1 < 0)), edgeList_length,
      if_pos (by norm_num : (0 : ℤ) ≤ ((0 : ℕ) : ℤ) - 1 + ((180 : ℕ) : ℤ)),
      (by decide : (((0 : ℕ) : ℤ) - 1 + ((180 : ℕ) : ℤ)).toNat = 179),
      edgeList_getElem (-90) 180 179 (by norm_num)]
    norm_num

/-- One ship observation record, with the fields the binning notebook
uses: YR, MO, LAT, LON and the present-weather code WW. -/
structure Obs where
  yr : ℤ
  mo : ℕ
  lat : ℚ
  lon : ℚ
  ww : ℕ

/-- Whether a record carries the groupby key (YR, MO, LAT_BIN, LON_BIN):
its year and month match and its coordinates receive the given bin labels
(lats = arange(-90, 90), lons = arange(0, 360)). -/
def keyMatch (r : Obs) (yr : ℤ) (mo : ℕ) (la lo : Option ℚ) : Bool :=
  decide (r.yr = yr) && decide (r.mo = mo) &&
    decide (binLabel (-90) 180 r.lat = la) && decide (binLabel 0 360 r.lon = lo)

/-- total_count of df_reports at one groupby key: the number of records of
the dataframe carrying that key. -/
def total_count (recs : List Obs) (yr : ℤ) (mo : ℕ) (la lo : Option ℚ) : ℕ :=
  (recs.filter (fun r => keyMatch r yr mo la lo)).length

/-- precip_count of df_precip at one groupby key: the dataframe is first
restricted to df.WW >= 50 (at least a drizzle) and then grouped by the same
key. -/
def precip_count (recs : List Obs) (yr : ℤ) (mo : ℕ) (la lo : Option ℚ) : ℕ :=
  total_count (recs.filter (fun r => decide (50 ≤ r.ww))) yr mo la lo

/-- The monthly count grid handed to the convolution notebook, as a function
of grid indices: cell (iyr, imo, x, y) counts the records of year
start_yr + iyr and month imo + 1 whose bin labels are the edges of row x
and column y (row x of the 1-degree grid has lower edge -90 + x, column y
has lower edge y). -/
def tinOf (recs : List Obs) (start_yr : ℤ) (Y H W : ℕ) (iyr : Fin Y)
    (imo : Fin 12) (x : ZMod H) (y : ZMod W) : ℤ :=
  (total_count recs (start_yr + (iyr : ℕ)) ((imo : ℕ) + 1)
    (some ((-90 + (x.val : ℤ) : ℤ) : ℚ)) (some ((y.val : ℤ) : ℚ)) : ℤ)

/-- The wrap convolution with an all-ones kernel is monotone in the grid. -/
theorem convolve2dWrap_mono (H W rh rw : ℕ) (t₁ t₂ : ZMod H → ZMod W → ℤ)
    (h : ∀ u v, t₁ u v ≤ t₂ u v) (x : ZMod H) (y : ZMod W) :
    convolve2dWrap H W rh rw t₁ x y ≤ convolve2dWrap H W rh rw t₂ x y := by
  unfold convolve2dWrap
  exact Finset.sum_le_sum (fun dx _ => Finset.sum_le_sum (fun dy _ => h _ _))

/-- Masking preserves the cell-wise order of convolved grids. -/
theorem maskedConv_mono (H W : ℕ) (ls_mask : ZMod H → ZMod W → Bool)
    (rh rw : ℕ) (t₁ t₂ : ZMod H → ZMod W → ℤ) (h : ∀ u v, t₁ u v ≤ t₂ u v)
    (x : ZMod H) (y : ZMod W) :
    maskedConv H W ls_mask rh rw t₁ x y ≤ maskedConv H W ls_mask rh rw t₂ x y := by
  unfold maskedConv
  exact mul_le_mul_of_nonneg_right (convolve2dWrap_mono H W rh rw t₁ t₂ h x y)
    (by split_ifs <;> norm_num)

/-- The whole accumulated output is monotone in the monthly input grids. -/
theorem tout_mono (Y H W : ℕ) (ls_mask : ZMod H → ZMod W → Bool)
    (tin₁ tin₂ : Fin Y → Fin 12 → ZMod H → ZMod W → ℤ)
    (h : ∀ iyr imo u v, tin₁ iyr imo u v ≤ tin₂ iyr imo u v) (j : Fin 7)
    (iyr : Fin Y) (iseason : Fin 5) (x : ZMod H) (y : ZMod W) :
    tout Y H W ls_mask tin₁ j iyr iseason x y
      ≤ tout Y H W ls_mask tin₂ j iyr iseason x y := by
  unfold tout
  exact List.sum_le_sum (fun imo _ =>
    maskedConv_mono H W ls_mask _ _ _ _ (h iyr imo) x y)

/-- C10: the qualifying count never exceeds the total count, at both
stages. At the binning stage, precip_count ≤ total_count at every
(year, month, lat bin, lon bin) groupby key, because the precipitating
records are a filtered sublist of all records. At the convolution stage,
every (window, year, season, lat, lon) cell of the convolved nprecip
tensor is at most the corresponding cell of the convolved nreports tensor,
because both tensors apply the same nonnegative all-ones convolution, the
same mask factor and the same seasonal accumulation to cell-wise ordered
monthly grids. -/
theorem precip_le_total_all_stages :
    (∀ (recs : List Obs) (yr : ℤ) (mo : ℕ) (la lo : Option ℚ),
        precip_count recs yr mo la lo ≤ total_count recs yr mo la lo) ∧
      (∀ (Y H W : ℕ) (ls_mask : ZMod H → ZMod W → Bool) (recs : List Obs)
          (start_yr : ℤ) (j : Fin 7) (iyr : Fin Y) (iseason : Fin 5)
          (x : ZMod H) (y : ZMod W),
        tout Y H W ls_mask
            (tinOf (recs.filter (fun r => decide (50 ≤ r.ww))) start_yr Y H W)
            j iyr iseason x y
          ≤ tout Y H W ls_mask (tinOf recs start_yr Y H W) j iyr iseason x y) := by
  have hcount : ∀ (recs : List Obs) (yr : ℤ) (mo : ℕ) (la lo : Option ℚ),
      precip_count recs yr mo la lo ≤ total_count recs yr mo la lo := by
    intro recs yr mo la lo
    unfold precip_count total_count
    exact List.Sublist.length_le
      (List.Sublist.filter _ (List.filter_sublist recs))
  refine ⟨hcount, ?_⟩
  intro Y H W ls_mask recs start_yr j iyr iseason x y
  refine tout_mono Y H W ls_mask _ _ ?_ j iyr iseason x y
  intro iyr imo u v
  unfold tinOf
  exact_mod_cast hcount recs _ _ _ _

end GRL
